import Mathlib

/-!
Verification development for SoraStitcher (src/SoraStitcher.py), an MP4
stitcher: it enumerates the .mp4 clips of a folder, puts a designated
starting clip first, shuffles the rest (optionally seeded), optionally
normalizes every clip to a common encoding profile, and joins the result
with an external tool driven by a concat manifest.

The Python source is embedded shallowly below: pure fragments become Lean
functions on `List Char` / `String` / `Int`; the outcomes of the external
tools (ffprobe, ffmpeg) are explicit parameters; the effectful pipeline of
`main` becomes a function producing an explicit record of its effects.
-/

namespace SoraStitcher

/-- The single-quote character (code point 39), written by code point so the
development never spells the character itself. -/
def sq : Char := Char.ofNat 39

/-- The backslash character (code point 92). -/
def bsl : Char := Char.ofNat 92

/-- The newline character (code point 10). -/
def nlc : Char := Char.ofNat 10

/-- Embedding of Python `str.lower()` restricted to ASCII, which is all the
source compares (`p.suffix.lower() == ".mp4"`, src line 183). -/
def lowerStr (s : String) : String := String.mk (s.toList.map Char.toLower)

/-- Embedding of `pathlib.PurePath.suffix`: the part of the final name from
its last dot onward, provided that dot is neither the first nor the last
character; otherwise the empty string. -/
def pySuffix (name : String) : String :=
  let cs := name.toList
  match cs.reverse.findIdx? (fun c => c = '.') with
  | none => ""
  | some k =>
    let i := cs.length - 1 - k
    if 0 < i ∧ i < cs.length - 1 then String.mk (cs.drop i) else ""

/-- Embedding of Python `str.strip()` (whitespace at both ends removed),
used by `probe_size` on the stdout of ffprobe (src line 76). -/
def pyStrip (cs : List Char) : List Char :=
  ((cs.dropWhile Char.isWhitespace).reverse.dropWhile Char.isWhitespace).reverse

/-- Embedding of Python `str.split(sep)` for a one-character separator,
used by `probe_size` (`s.split("x")`, src line 78) and by the line-based
reading of the concat manifest. -/
def splitOnChar (c : Char) : List Char → List (List Char)
  | [] => [[]]
  | d :: rest =>
    if d = c then [] :: splitOnChar c rest
    else
      match splitOnChar c rest with
      | [] => [[d]]
      | l :: ls => (d :: l) :: ls

/-- Value of an all-digit, nonempty character list; `none` otherwise.
Helper for the embedding of Python `int(...)`. -/
def digitsVal (cs : List Char) : Option Nat :=
  if cs.isEmpty then none
  else if cs.all Char.isDigit then
    some (cs.foldl (fun a c => a * 10 + (c.toNat - 48)) 0)
  else none

/-- Embedding of Python `int(str)` (ASCII digits, optional sign, optional
surrounding whitespace); `none` models the `ValueError` that `probe_size`
catches (src lines 58-81). -/
def pyInt (cs : List Char) : Option Int :=
  match pyStrip cs with
  | '-' :: ds => (digitsVal ds).map (fun n => -(n : Int))
  | '+' :: ds => (digitsVal ds).map (fun n => (n : Int))
  | ds => (digitsVal ds).map (fun n => (n : Int))

/-- Outcome of the external ffprobe invocation inside `probe_size`
(src lines 59-75): either the subprocess raises (tool missing or nonzero
exit under `check=True`), or it returns some stdout text. -/
inductive ProbeOutcome where
  | fails
  | succeeds (stdout : List Char)
deriving DecidableEq, Repr

/-- Embedding of `probe_size` (src lines 56-82): strip the stdout, require
an `x` separator splitting it into exactly two integer fields, and fall
back to `(1920, 1080)` in every other case, including a raising
subprocess. The function is total: no probe outcome aborts. -/
def probe_size (o : ProbeOutcome) : Int × Int :=
  match o with
  | .fails => (1920, 1080)
  | .succeeds out =>
    let s := pyStrip out
    if s.contains 'x' then
      match splitOnChar 'x' s with
      | [wstr, hstr] =>
        match pyInt wstr, pyInt hstr with
        | some w, some h => (w, h)
        | _, _ => (1920, 1080)
      | _ => (1920, 1080)
    else (1920, 1080)

/-- Python truthiness of an `Optional[int]`: `None` and `0` are falsy.
This is what `if args.width and args.height:` (src line 205) tests. -/
def pyTruthy : Option Int → Bool
  | none => false
  | some n => n != 0

/-- Embedding of the Python expression `a or b` for an `Optional[int]` `a`
(src line 209): the value of `a` when truthy, else `b`. -/
def pyOr (a : Option Int) (b : Int) : Int :=
  match a with
  | none => b
  | some n => if n = 0 then b else n

/-- Embedding of the target-size resolution of `main` (src lines 205-209).
Returns the resolved `(width, height)` together with a flag recording
whether the probe branch was taken (the probe side effect happened). -/
def resolveSize (w h : Option Int) (o : ProbeOutcome) : (Int × Int) × Bool :=
  if pyTruthy w && pyTruthy h then ((w.getD 0, h.getD 0), false)
  else
    let wh := probe_size o
    ((pyOr w wh.1, pyOr h wh.2), true)

/-- Boolean lexicographic comparison of character lists by code point.
This is the order Python uses when `sorted` compares the paths of files of
one directory (src line 183): the common directory part is equal, so the
comparison is the code-point comparison of the file names. -/
def lexLe : List Char → List Char → Bool
  | [], _ => true
  | _ :: _, [] => false
  | a :: s, b :: t =>
    if a = b then lexLe s t
    else decide (a.toNat < b.toNat)

/-- The sorting relation on file names induced by `lexLe`. -/
def nameLe (a b : String) : Prop := lexLe a.toList b.toList = true

instance : DecidableRel nameLe :=
  fun a b => inferInstanceAs (Decidable (lexLe a.toList b.toList = true))

/-- One directory entry as `main` sees it through `folder.iterdir()`:
a name and whether the entry is a regular file. The model is one flat
directory, which is exactly what `iterdir` exposes (non-recursive). -/
structure Entry where
  name : String
  isFile : Bool
deriving DecidableEq, Repr

/-- The filter of src line 183: `p.suffix.lower() == ".mp4" and p.is_file()`. -/
def eligible (e : Entry) : Bool :=
  lowerStr (pySuffix e.name) == ".mp4" && e.isFile

/-- Embedding of src line 183:
`clips = sorted([p for p in folder.iterdir() if p.suffix.lower() == ".mp4" and p.is_file()])`.
The filesystem enumeration order is the order of `entries`; `sorted` is
modelled by insertion sort under the code-point order `nameLe`. -/
def enumerateClips (entries : List Entry) : List String :=
  List.insertionSort nameLe ((entries.filter eligible).map Entry.name)

/-- Embedding of the start resolution of `main` (src lines 188-195) for a
plain file name (no path separator): `start_path = (folder / start).resolve()`
exists exactly when some directory entry bears that name (file or not);
only when it does not exist are the enumerated clips searched by name, and
exhaustion of that search is the exit-4 error path. -/
def resolveStart (entries : List Entry) (clips : List String) (st : String) : Option String :=
  if entries.any (fun e => e.name == st) then some st
  else
    match clips.filter (fun p => p == st) with
    | [] => none
    | c :: _ => some c

/-- One swap `x[i], x[j] = x[j], x[i]` on a list; identity when either
index is out of range (never the case in the shuffle below). -/
def listSwap {α : Type} (xs : List α) (i j : Nat) : List α :=
  match xs[i]?, xs[j]? with
  | some a, some b => (xs.set i b).set j a
  | _, _ => xs

/-- The Fisher-Yates loop of CPython `random.shuffle`: for the current
index `i+1` counting down to 1, swap it with a random index below `i+2`.
`g` is the stream of raw random draws, `t` the number of draws consumed. -/
def shuffleAux {α : Type} (g : Nat → Nat) : Nat → Nat → List α → List α
  | _, 0, xs => xs
  | t, i+1, xs => shuffleAux g (t+1) i (listSwap xs (i+1) (g t % (i+2)))

/-- Modelled from the spec: `random.shuffle` (src line 200) is a
Fisher-Yates permutation driven by a pseudo-random generator; the stdlib
generator itself is outside the repository, so it is abstracted as the
stream `g` of draws. -/
def pyShuffle {α : Type} (g : Nat → Nat) (xs : List α) : List α :=
  shuffleAux g 0 (xs.length - 1) xs

/-- Modelled from the spec: `random.seed(seed)` (src line 199) replaces
the generator state by one fully determined by the seed. The concrete
formula is irrelevant to every claim; only its functional dependence on
the seed alone matters. -/
def seededGen (seed : Int) : Nat → Nat :=
  fun t => (seed.natAbs * 1103515245 + t * 12345 + 12345) % 2147483648

/-- The generator the shuffle runs on (src lines 198-199): the ambient
generator state `g0`, unless a seed is supplied, in which case
`random.seed` replaces it by the state determined by the seed alone. -/
def planGen (seed : Option Int) (g0 : Nat → Nat) : Nat → Nat :=
  match seed with
  | some s => seededGen s
  | none => g0

/-- Embedding of the order planning of `main` (src lines 197-201):
`others = [p for p in clips if p != start_path]`, an optional reseeding of
the generator, the shuffle of `others`, and `ordered = [start_path] + others`. -/
def planOrder (seed : Option Int) (g0 : Nat → Nat) (clips : List String)
    (startPath : String) : List String :=
  startPath :: pyShuffle (planGen seed g0) (clips.filter (fun p => p != startPath))

/-- Embedding of the `-vf` filter expression of `normalize_clip`
(src lines 99-102). -/
def vfString (width height fps : Int) : String :=
  "scale=w=" ++ toString width ++ ":h=" ++ toString height ++
  ":force_original_aspect_ratio=decrease," ++
  "pad=" ++ toString width ++ ":" ++ toString height ++
  ":(ow-iw)/2:(oh-ih)/2:color=black,fps=" ++ toString fps

/-- Embedding of the ffmpeg command list of `normalize_clip`
(src lines 103-129). -/
def normalizeCmd (src dst : String) (fps : Int) (size : Int × Int) (crf : Int)
    (preset audioBitrate : String) : List String :=
  ["ffmpeg", "-y", "-i", src, "-vf", vfString size.1 size.2 fps, "-c:v", "libx264",
   "-preset", preset, "-crf", toString crf, "-pix_fmt", "yuv420p", "-r", toString fps,
   "-c:a", "aac", "-b:a", audioBitrate, "-ar", "48000", "-ac", "2", dst]

/-- Zero-padding to at least four digits, the `f"{idx:04d}"` of src line 228. -/
def pad4 (n : Nat) : String :=
  let s := toString n
  if s.length < 4 then String.mk (List.replicate (4 - s.length) '0') ++ s else s

/-- The intermediate-file name `f"part_{idx:04d}.mp4"` of src line 228. -/
def partName (idx : Nat) : String := "part_" ++ pad4 idx ++ ".mp4"

/-- Embedding of the ffmpeg command list of `concat_via_list`
(src lines 139-151): a stream-copy (`-c copy`) concat-demuxer invocation. -/
def concatCmd (listPath output : String) : List String :=
  ["ffmpeg", "-y", "-f", "concat", "-safe", "0", "-i", listPath, "-c", "copy", output]

/-- Embedding of the escaping of src line 136: every single quote of the
path is replaced by the four characters quote, backslash, quote, quote
(Python `p.replace` with replacement written `"'\\''"` in the source). -/
def escSQ : List Char → List Char
  | [] => []
  | c :: rest =>
    if c = sq then sq :: bsl :: sq :: sq :: escSQ rest
    else c :: escSQ rest

/-- The six characters `file ` followed by an opening quote, the fixed
text around each manifest entry (src line 136). -/
def fileTag : List Char := ['f', 'i', 'l', 'e', ' ', sq]

/-- One manifest line as written by src line 136: the tag, the escaped
path, a closing quote and a newline. -/
def manifestLine (p : List Char) : List Char := fileTag ++ escSQ p ++ [sq, nlc]

/-- The whole manifest written by the loop of src lines 135-136, one
`manifestLine` per input path, in order. -/
def manifestContent (ps : List (List Char)) : List Char := (ps.map manifestLine).flatten

/-- Physical lines of a text, split at every newline character. -/
def splitLines : List Char → List (List Char) := splitOnChar nlc

/-- Modelled from the spec: the token reader of the external joiner for
one manifest entry (ffmpeg quoting as stated in the external-interface
contract): a single-quoted run is taken literally, a backslash outside
quotes escapes the next character, and an unterminated quote is an error. -/
def unq : List Char → Bool → Option (List Char)
  | [], q => if q then none else some []
  | c :: rest, q =>
    if c = sq then unq rest (!q)
    else if c = bsl ∧ q = false then
      match rest with
      | [] => none
      | d :: rest2 => (unq rest2 false).map (fun l => d :: l)
    else (unq rest q).map (fun l => c :: l)

/-- Modelled from the spec: the external joiner parses one manifest line
as the keyword `file `, a space, and one quoted path token. -/
def parseEntry (l : List Char) : Option (List Char) :=
  if l.take 5 = ['f', 'i', 'l', 'e', ' '] then unq (l.drop 5) false else none

/-- Parse every line of a manifest; any ill-formed line fails the parse. -/
def parseAllEntries : List (List Char) → Option (List (List Char))
  | [] => some []
  | l :: ls =>
    match parseEntry l, parseAllEntries ls with
    | some p, some ps => some (p :: ps)
    | _, _ => none

/-- Modelled from the spec: the ordered list of literal paths the external
joiner reads out of a manifest text (newline-delimited entries, blank
lines ignored). -/
def joinerPaths (content : List Char) : Option (List (List Char)) :=
  parseAllEntries ((splitLines content).filter (fun l => !l.isEmpty))

/-- Observable events of one `concat_via_list` call (src lines 133-157). -/
inductive Ev where
  | writeManifest (content : List Char)
  | invoke (cmd : List String)
  | unlinkManifest
  | exitProc (code : Int)
deriving DecidableEq, Repr

/-- Event trace of `concat_via_list` (src lines 133-157): the manifest is
written, ffmpeg is invoked, and the `finally` block unlinks the manifest
on the success path as well as on the path where `run` raises `SystemExit`
with the ffmpeg exit status (`outcome = some code`). -/
def concatTrace (files : List (List Char)) (listPath output : String)
    (outcome : Option Int) : List Ev :=
  [Ev.writeManifest (manifestContent files), Ev.invoke (concatCmd listPath output)] ++
  match outcome with
  | none => [Ev.unlinkManifest]
  | some c => [Ev.unlinkManifest, Ev.exitProc c]

/-- Effect summary of the branch of `main` after order planning
(src lines 214-245). `invoked` are the transcoder commands started, in
order; `normalized` the intermediate files produced; `concatList` the file
list handed to `concat_via_list` when it runs; `exit` the process exit
status (0 on success, the failing tool status otherwise). -/
structure Effects where
  tempDirCreated : Bool
  tempDirRemoved : Bool
  invoked : List (List String)
  normalized : List String
  concatList : Option (List String)
  manifestDeleted : Bool
  outputWritten : Bool
  exit : Int
deriving DecidableEq, Repr

/-- The normalization loop of src lines 227-239, clip by clip in play
order. `tc i` is the outcome of the external transcoder on clip `i`
(`none` success, `some code` a `CalledProcessError` with that status, on
which `run` raises and the loop stops). Returns the commands invoked, the
intermediate files produced, and the first failure if any. -/
def normLoop (size : Int × Int) (fps crf : Int) (preset audioBitrate : String)
    (tc : Nat → Option Int) : Nat → List String → List (List String) × List String × Option Int
  | _, [] => ([], [], none)
  | i, src :: rest =>
    let cmd := normalizeCmd src (partName i) fps size crf preset audioBitrate
    match tc i with
    | some c => ([cmd], [], some c)
    | none =>
      let r := normLoop size fps crf preset audioBitrate tc (i+1) rest
      (cmd :: r.1, partName i :: r.2.1, r.2.2)

/-- Embedding of the two branches of `main` after order planning
(src lines 214-245). Fast mode (lines 214-221) calls `concat_via_list` on
the original clips directly, creating no temporary directory and invoking
no transcoder. The normal path (lines 223-245) creates the scoped
temporary directory, normalizes every clip in order until the first
failure, and concatenates the intermediate files; the `with` block
guarantees the temporary directory is removed on every exit, including
the `SystemExit` that `run` raises on a tool failure. `cc` is the outcome
of the external joiner. -/
def pipeline (fast : Bool) (size : Int × Int) (fps crf : Int)
    (preset audioBitrate : String) (ordered : List String)
    (tc : Nat → Option Int) (cc : Option Int) : Effects :=
  if fast then
    { tempDirCreated := false, tempDirRemoved := false, invoked := [], normalized := [],
      concatList := some ordered, manifestDeleted := true,
      outputWritten := cc.isNone, exit := cc.getD 0 }
  else
    let r := normLoop size fps crf preset audioBitrate tc 0 ordered
    match r.2.2 with
    | some c =>
      { tempDirCreated := true, tempDirRemoved := true, invoked := r.1, normalized := r.2.1,
        concatList := none, manifestDeleted := false, outputWritten := false, exit := c }
    | none =>
      { tempDirCreated := true, tempDirRemoved := true, invoked := r.1, normalized := r.2.1,
        concatList := some r.2.1, manifestDeleted := true,
        outputWritten := cc.isNone, exit := cc.getD 0 }

/-- Result of a run of `main` from clip enumeration on (the folder is
assumed to exist; exit 2 is outside this model). `earlyExit 3` is the
empty-clip-set error, `earlyExit 4` the start-not-found error; `ran`
carries whether the dimension probe happened and the pipeline effects. -/
inductive MainResult where
  | earlyExit (code : Int)
  | ran (probed : Bool) (eff : Effects)
deriving DecidableEq, Repr

/-- The probe flag of a run result, when the run got as far as profile
resolution. -/
def MainResult.probedOf : MainResult → Option Bool
  | .earlyExit _ => none
  | .ran p _ => some p

/-- Embedding of `main` from src line 183 on: enumerate clips (exit 3 when
none), resolve the start (exit 4 on failure), plan the order, resolve the
target size (probing unless both dimensions are truthy), then run the fast
or the normal branch. -/
def mainModel (entries : List Entry) (st : String) (w h : Option Int) (fps crf : Int)
    (preset audioBitrate : String) (o : ProbeOutcome) (seed : Option Int)
    (g0 : Nat → Nat) (fast : Bool) (tc : Nat → Option Int) (cc : Option Int) : MainResult :=
  let clips := enumerateClips entries
  if clips.isEmpty then MainResult.earlyExit 3
  else
    match resolveStart entries clips st with
    | none => MainResult.earlyExit 4
    | some sp =>
      let ordered := planOrder seed g0 clips sp
      let sizeProbed := resolveSize w h o
      MainResult.ran sizeProbed.2
        (pipeline fast sizeProbed.1 fps crf preset audioBitrate ordered tc cc)

/-- A folder holding one eligible clip and one plain text file, the
concrete filesystem used by the counterexamples below. -/
def entries0 : List Entry := [⟨"a.mp4", true⟩, ⟨"notes.txt", true⟩]

/-! ## Order lemmas for the file-name comparison -/

theorem charToNat_inj {a b : Char} (h : a.toNat = b.toNat) : a = b :=
  Char.eq_of_val_eq (UInt32.ext h)

theorem stringToList_inj {a b : String} (h : a.toList = b.toList) : a = b := by
  cases a
  cases b
  exact congrArg String.mk (by simpa [String.toList] using h)

theorem lexLe_total : ∀ s t : List Char, lexLe s t = true ∨ lexLe t s = true
  | [], _ => Or.inl rfl
  | _ :: _, [] => Or.inr rfl
  | a :: s, b :: t => by
    by_cases hab : a = b
    · subst hab
      rcases lexLe_total s t with h | h
      · exact Or.inl (by simpa [lexLe] using h)
      · exact Or.inr (by simpa [lexLe] using h)
    · have hba : ¬ b = a := fun e => hab e.symm
      have hne : a.toNat ≠ b.toNat := fun e => hab (charToNat_inj e)
      rcases Nat.lt_or_ge a.toNat b.toNat with h | h
      · exact Or.inl (by simp [lexLe, hab, h])
      · have h2 : b.toNat < a.toNat := Nat.lt_of_le_of_ne h (fun e => hne e.symm)
        exact Or.inr (by simp [lexLe, hba, h2])

theorem lexLe_trans :
    ∀ s t u : List Char, lexLe s t = true → lexLe t u = true → lexLe s u = true
  | [], _, _, _, _ => rfl
  | _ :: _, [], _, h, _ => by simp [lexLe] at h
  | _ :: _, _ :: _, [], _, h => by simp [lexLe] at h
  | a :: s, b :: t, c :: u, h1, h2 => by
    by_cases hab : a = b
    · subst hab
      by_cases hac : a = c
      · subst hac
        simp only [lexLe, if_pos rfl] at h1 h2 ⊢
        exact lexLe_trans s t u h1 h2
      · simp only [lexLe, if_pos rfl] at h1
        simp only [lexLe, if_neg hac] at h2 ⊢
        exact h2
    · by_cases hbc : b = c
      · subst hbc
        simp only [lexLe, if_neg hab] at h1 ⊢
        exact h1
      · simp only [lexLe, if_neg hab, decide_eq_true_eq] at h1
        simp only [lexLe, if_neg hbc, decide_eq_true_eq] at h2
        have hac : ¬ a = c := by
          intro e
          subst e
          exact Nat.lt_asymm h1 h2
        simp only [lexLe, if_neg hac, decide_eq_true_eq]
        exact Nat.lt_trans h1 h2

theorem lexLe_antisymm : ∀ s t : List Char, lexLe s t = true → lexLe t s = true → s = t
  | [], [], _, _ => rfl
  | [], _ :: _, _, h => by simp [lexLe] at h
  | _ :: _, [], h, _ => by simp [lexLe] at h
  | a :: s, b :: t, h1, h2 => by
    by_cases hab : a = b
    · subst hab
      simp only [lexLe, if_pos rfl] at h1 h2
      rw [lexLe_antisymm s t h1 h2]
    · exfalso
      have hba : ¬ b = a := fun e => hab e.symm
      simp only [lexLe, if_neg hab, decide_eq_true_eq] at h1
      simp only [lexLe, if_neg hba, decide_eq_true_eq] at h2
      exact Nat.lt_asymm h1 h2

instance : IsTotal String nameLe :=
  ⟨fun a b => lexLe_total a.toList b.toList⟩

instance : IsTrans String nameLe :=
  ⟨fun a b c => lexLe_trans a.toList b.toList c.toList⟩

instance : IsAntisymm String nameLe :=
  ⟨fun a b h1 h2 => stringToList_inj (lexLe_antisymm a.toList b.toList h1 h2)⟩

/-! ## Enumeration lemmas -/

theorem mem_enumerateClips {entries : List Entry} {x : String} :
    x ∈ enumerateClips entries ↔ ∃ e ∈ entries, e.name = x ∧ eligible e = true := by
  unfold enumerateClips
  rw [(List.perm_insertionSort nameLe _).mem_iff]
  simp only [List.mem_map, List.mem_filter]
  constructor
  · rintro ⟨e, ⟨he, hel⟩, hn⟩
    exact ⟨e, he, hn, hel⟩
  · rintro ⟨e, he, hn, hel⟩
    exact ⟨e, ⟨he, hel⟩, hn⟩

theorem sorted_enumerateClips (entries : List Entry) :
    (enumerateClips entries).Sorted nameLe :=
  List.sorted_insertionSort nameLe _

theorem enumerateClips_perm {e1 e2 : List Entry} (h : e1.Perm e2) :
    enumerateClips e1 = enumerateClips e2 := by
  refine List.eq_of_perm_of_sorted (r := nameLe) ?_
    (sorted_enumerateClips e1) (sorted_enumerateClips e2)
  exact (List.perm_insertionSort nameLe _).trans
    (((h.filter eligible).map Entry.name).trans (List.perm_insertionSort nameLe _).symm)

theorem nodup_enumerateClips {entries : List Entry}
    (h : (entries.map Entry.name).Nodup) : (enumerateClips entries).Nodup := by
  have hsub : ((entries.filter eligible).map Entry.name).Sublist (entries.map Entry.name) :=
    (List.filter_sublist entries).map Entry.name
  exact (List.perm_insertionSort nameLe _).symm.nodup (List.Nodup.sublist hsub h)

/-! ## Shuffle permutation lemmas -/

theorem cons_set_perm {α : Type} :
    ∀ (t : List α) (k : Nat) (a b : α), t[k]? = some a → (a :: t.set k b).Perm (b :: t)
  | [], k, _, _, h => by simp at h
  | c :: t, 0, a, b, h => by
    simp only [List.getElem?_cons_zero, Option.some.injEq] at h
    show (a :: b :: t).Perm (b :: c :: t)
    rw [← h]
    exact List.Perm.swap b c t
  | c :: t, k + 1, a, b, h => by
    simp only [List.getElem?_cons_succ] at h
    show (a :: c :: t.set k b).Perm (b :: c :: t)
    exact (List.Perm.swap c a _).trans
      (((cons_set_perm t k a b h).cons c).trans (List.Perm.swap b c t))

theorem set_set_perm {α : Type} :
    ∀ (xs : List α) (i j : Nat) (a b : α),
      xs[i]? = some a → xs[j]? = some b → ((xs.set i b).set j a).Perm xs
  | [], i, _, _, _, hi, _ => by simp at hi
  | x :: t, 0, 0, a, b, hi, hj => by
    simp only [List.getElem?_cons_zero, Option.some.injEq] at hi hj
    show (a :: t).Perm (x :: t)
    rw [hi]
  | x :: t, 0, j + 1, a, b, hi, hj => by
    simp only [List.getElem?_cons_zero, List.getElem?_cons_succ, Option.some.injEq] at hi hj
    show (b :: t.set j a).Perm (x :: t)
    rw [hi]
    exact cons_set_perm t j b a hj
  | x :: t, i + 1, 0, a, b, hi, hj => by
    simp only [List.getElem?_cons_zero, List.getElem?_cons_succ, Option.some.injEq] at hi hj
    show (a :: t.set i b).Perm (x :: t)
    rw [hj]
    exact cons_set_perm t i a b hi
  | x :: t, i + 1, j + 1, a, b, hi, hj => by
    simp only [List.getElem?_cons_succ] at hi hj
    show (x :: (t.set i b).set j a).Perm (x :: t)
    exact (set_set_perm t i j a b hi hj).cons x

theorem listSwap_perm {α : Type} (xs : List α) (i j : Nat) : (listSwap xs i j).Perm xs := by
  unfold listSwap
  cases hi : xs[i]? with
  | none => exact List.Perm.refl _
  | some a =>
    cases hj : xs[j]? with
    | none => exact List.Perm.refl _
    | some b => exact set_set_perm xs i j a b hi hj

theorem shuffleAux_perm {α : Type} (g : Nat → Nat) :
    ∀ (i t : Nat) (xs : List α), (shuffleAux g t i xs).Perm xs
  | 0, _, _ => List.Perm.refl _
  | i + 1, t, xs =>
    (shuffleAux_perm g i (t + 1) _).trans (listSwap_perm xs (i + 1) (g t % (i + 2)))

theorem pyShuffle_perm {α : Type} (g : Nat → Nat) (xs : List α) :
    (pyShuffle g xs).Perm xs :=
  shuffleAux_perm g (xs.length - 1) 0 xs

/-! ## Manifest lemmas -/

theorem escSQ_cons (c : Char) (p : List Char) :
    escSQ (c :: p) =
      if c = sq then sq :: bsl :: sq :: sq :: escSQ p else c :: escSQ p := rfl

theorem unq_nil (q : Bool) : unq [] q = if q then none else some [] := rfl

theorem unq_cons (c : Char) (rest : List Char) (q : Bool) :
    unq (c :: rest) q =
      if c = sq then unq rest (!q)
      else if c = bsl ∧ q = false then
        match rest with
        | [] => none
        | d :: rest2 => (unq rest2 false).map (fun l => d :: l)
      else (unq rest q).map (fun l => c :: l) := by
  rw [unq.eq_def]

theorem nlc_notin_escSQ : ∀ p : List Char, nlc ∉ p → nlc ∉ escSQ p
  | [], _ => by decide
  | c :: p, h => by
    have hc : c ≠ nlc := fun e => h (e ▸ List.mem_cons_self c p)
    have hp : nlc ∉ p := fun e => h (List.mem_cons_of_mem c e)
    rw [escSQ_cons]
    by_cases hcs : c = sq
    · rw [if_pos hcs]
      intro hmem
      simp only [List.mem_cons] at hmem
      rcases hmem with e | e | e | e | e
      · exact absurd e (by decide)
      · exact absurd e (by decide)
      · exact absurd e (by decide)
      · exact absurd e (by decide)
      · exact nlc_notin_escSQ p hp e
    · rw [if_neg hcs]
      intro hmem
      rcases List.mem_cons.mp hmem with e | e
      · exact hc e.symm
      · exact nlc_notin_escSQ p hp e

theorem splitLines_append :
    ∀ (l rest : List Char), nlc ∉ l →
      splitLines (l ++ nlc :: rest) = l :: splitLines rest
  | [], rest, _ => by
    show splitOnChar nlc (nlc :: rest) = [] :: splitLines rest
    rw [splitOnChar, if_pos rfl]
    rfl
  | c :: l, rest, h => by
    have hc : ¬ c = nlc := fun e => h (e ▸ List.mem_cons_self c l)
    have hl : nlc ∉ l := fun e => h (List.mem_cons_of_mem c e)
    show splitOnChar nlc (c :: (l ++ nlc :: rest)) = (c :: l) :: splitLines rest
    rw [splitOnChar, if_neg hc]
    rw [show splitOnChar nlc (l ++ nlc :: rest) = splitLines (l ++ nlc :: rest) from rfl]
    rw [splitLines_append l rest hl]

theorem nlc_notin_lineBody {p : List Char} (h : nlc ∉ p) :
    nlc ∉ fileTag ++ escSQ p ++ [sq] := by
  intro hmem
  rcases List.mem_append.mp hmem with h1 | h2
  · rcases List.mem_append.mp h1 with h3 | h4
    · revert h3
      decide
    · exact nlc_notin_escSQ p h h4
  · revert h2
    decide

theorem splitLines_manifest :
    ∀ ps : List (List Char), (∀ p ∈ ps, nlc ∉ p) →
      splitLines (manifestContent ps) =
        ps.map (fun p => fileTag ++ escSQ p ++ [sq]) ++ [[]]
  | [], _ => by
    show splitOnChar nlc ([].map manifestLine).flatten = [] ++ [[]]
    rfl
  | p :: ps, h => by
    have hp : nlc ∉ p := h p (List.mem_cons_self p ps)
    have hps : ∀ q ∈ ps, nlc ∉ q := fun q hq => h q (List.mem_cons_of_mem p hq)
    have hshape : manifestContent (p :: ps) =
        (fileTag ++ escSQ p ++ [sq]) ++ nlc :: manifestContent ps := by
      show manifestLine p ++ manifestContent ps =
        (fileTag ++ escSQ p ++ [sq]) ++ nlc :: manifestContent ps
      simp [manifestLine, List.append_assoc]
    rw [show splitLines (manifestContent (p :: ps)) =
          splitLines ((fileTag ++ escSQ p ++ [sq]) ++ nlc :: manifestContent ps) from
        congrArg splitLines hshape,
      splitLines_append _ _ (nlc_notin_lineBody hp), splitLines_manifest ps hps]
    simp

theorem unq_escSQ : ∀ p : List Char, unq (escSQ p ++ [sq]) true = some p
  | [] => by
    show unq (sq :: []) true = some []
    rw [unq_cons, if_pos rfl]
    rfl
  | c :: p => by
    rw [escSQ_cons]
    by_cases hcs : c = sq
    · rw [if_pos hcs]
      subst hcs
      simp only [List.cons_append]
      rw [unq_cons, if_pos rfl, Bool.not_true]
      rw [unq_cons, if_neg (show ¬bsl = sq by decide),
        if_pos (show bsl = bsl ∧ false = false from ⟨rfl, rfl⟩)]
      show (unq (sq :: (escSQ p ++ [sq])) false).map (fun l => sq :: l) = some (sq :: p)
      rw [unq_cons, if_pos rfl, Bool.not_false, unq_escSQ p]
      rfl
    · rw [if_neg hcs]
      simp only [List.cons_append]
      rw [unq_cons, if_neg hcs,
        if_neg (show ¬(c = bsl ∧ true = false) from fun e => absurd e.2 (by decide)),
        unq_escSQ p]
      rfl

theorem parseEntry_manifestLine (p : List Char) :
    parseEntry (fileTag ++ escSQ p ++ [sq]) = some p := by
  show parseEntry ('f' :: 'i' :: 'l' :: 'e' :: ' ' :: sq :: (escSQ p ++ [sq])) = some p
  rw [parseEntry, if_pos (by rfl)]
  show unq (sq :: (escSQ p ++ [sq])) false = some p
  rw [unq_cons, if_pos rfl, Bool.not_false]
  exact unq_escSQ p

theorem parseAllEntries_manifest :
    ∀ ps : List (List Char),
      parseAllEntries (ps.map (fun p => fileTag ++ escSQ p ++ [sq])) = some ps
  | [] => rfl
  | p :: ps => by
    simp only [List.map_cons, parseAllEntries, parseEntry_manifestLine p,
      parseAllEntries_manifest ps]

/-! ## Pipeline and start-resolution lemmas -/

theorem normLoop_firstFail (size : Int × Int) (fps crf : Int) (preset audioBitrate : String)
    (tc : Nat → Option Int) (c : Int) :
    ∀ (ordered : List String) (s i : Nat), i < ordered.length →
      (∀ j, j < i → tc (s + j) = none) → tc (s + i) = some c →
      normLoop size fps crf preset audioBitrate tc s ordered =
        (((ordered.take (i + 1)).enumFrom s).map
           (fun p => normalizeCmd p.2 (partName p.1) fps size crf preset audioBitrate),
         (List.range' s i).map partName,
         some c)
  | [], _, i, hi, _, _ => by simp at hi
  | src :: rest, s, 0, _, _, hfail => by
    rw [Nat.add_zero] at hfail
    show (match tc s with
      | some c => ([normalizeCmd src (partName s) fps size crf preset audioBitrate], [], some c)
      | none =>
        let r := normLoop size fps crf preset audioBitrate tc (s + 1) rest
        (normalizeCmd src (partName s) fps size crf preset audioBitrate :: r.1,
         partName s :: r.2.1, r.2.2)) = _
    rw [hfail]
    rfl
  | src :: rest, s, i + 1, hi, hok, hfail => by
    have h0 : tc s = none := by
      have := hok 0 (Nat.succ_pos i)
      rwa [Nat.add_zero] at this
    have hok2 : ∀ j, j < i → tc (s + 1 + j) = none := by
      intro j hj
      have := hok (j + 1) (Nat.succ_lt_succ hj)
      rwa [show s + (j + 1) = s + 1 + j by omega] at this
    have hfail2 : tc (s + 1 + i) = some c := by
      rwa [show s + (i + 1) = s + 1 + i by omega] at hfail
    have hlen : i < rest.length := by
      simpa using Nat.lt_of_succ_lt_succ hi
    show (match tc s with
      | some c => ([normalizeCmd src (partName s) fps size crf preset audioBitrate], [], some c)
      | none =>
        let r := normLoop size fps crf preset audioBitrate tc (s + 1) rest
        (normalizeCmd src (partName s) fps size crf preset audioBitrate :: r.1,
         partName s :: r.2.1, r.2.2)) = _
    rw [h0]
    show (let r := normLoop size fps crf preset audioBitrate tc (s + 1) rest
      (normalizeCmd src (partName s) fps size crf preset audioBitrate :: r.1,
       partName s :: r.2.1, r.2.2)) = _
    rw [normLoop_firstFail size fps crf preset audioBitrate tc c rest (s + 1) i hlen hok2 hfail2]
    show (normalizeCmd src (partName s) fps size crf preset audioBitrate ::
        ((rest.take (i + 1)).enumFrom (s + 1)).map
          (fun p => normalizeCmd p.2 (partName p.1) fps size crf preset audioBitrate),
      partName s :: (List.range' (s + 1) i).map partName, some c) = _
    rw [show (src :: rest).take (i + 1 + 1) = src :: rest.take (i + 1) from rfl]
    rw [show List.enumFrom s (src :: rest.take (i + 1)) =
      (s, src) :: List.enumFrom (s + 1) (rest.take (i + 1)) from rfl]
    rw [show List.range' s (i + 1) = s :: List.range' (s + 1) i from rfl]
    rfl

theorem clips_have_entries {entries : List Entry} {x : String}
    (h : x ∈ enumerateClips entries) : ∃ e ∈ entries, e.name = x := by
  rcases mem_enumerateClips.mp h with ⟨e, he, hn, _⟩
  exact ⟨e, he, hn⟩

theorem resolveStart_eq_none_iff (entries : List Entry) (st : String) :
    resolveStart entries (enumerateClips entries) st = none ↔
      ∀ e ∈ entries, e.name ≠ st := by
  unfold resolveStart
  by_cases hany : entries.any (fun e => e.name == st) = true
  · rw [if_pos hany]
    simp only [List.any_eq_true, beq_iff_eq] at hany
    rcases hany with ⟨e, he, hn⟩
    constructor
    · intro h
      exact absurd h (by simp)
    · intro h
      exact absurd hn (h e he)
  · rw [if_neg hany]
    have hnone : ∀ e ∈ entries, e.name ≠ st := by
      rw [Bool.not_eq_true, List.any_eq_false] at hany
      intro e he
      have := hany e he
      simpa using this
    cases hfil : (enumerateClips entries).filter (fun p => p == st) with
    | nil => exact ⟨fun _ => hnone, fun _ => rfl⟩
    | cons cHead cTail =>
      exfalso
      have hmem : cHead ∈ (enumerateClips entries).filter (fun p => p == st) := by
        rw [hfil]
        exact List.mem_cons_self cHead cTail
      rcases List.mem_filter.mp hmem with ⟨hmem2, hbeq⟩
      have hst : cHead = st := by simpa using hbeq
      rcases clips_have_entries hmem2 with ⟨e, he, hn⟩
      exact hnone e he (hst ▸ hn)

theorem resolveSize_probed_of_missing {w h : Option Int} (hw : w = none ∨ h = none)
    (o : ProbeOutcome) : (resolveSize w h o).2 = true := by
  unfold resolveSize
  rcases hw with rfl | rfl
  · rw [if_neg (by simp [pyTruthy])]
  · rw [if_neg (by simp [pyTruthy])]

/-! ## Claim theorems -/

/-- C1 (counterexample): the claim fails as stated. With a folder holding
`a.mp4` and a plain file `notes.txt`, the run started with `notes.txt`
reaches order planning (the start resolves, because the path exists), yet
the produced play order has length 2 while only one clip was enumerated:
the resolved start is not an enumerated clip, so prepending it breaks the
length invariant. -/
theorem c1_counterexample :
    resolveStart entries0 (enumerateClips entries0) "notes.txt" = some "notes.txt" ∧
    (planOrder (some 0) (fun _ => 0) (enumerateClips entries0) "notes.txt").length ≠
      (enumerateClips entries0).length := by
  decide

/-- C1 (amended): for every run that reaches order planning whose resolved
starting clip is one of the enumerated clips (and with distinct directory
entry names, as a real directory guarantees), the play order has the start
at index 0, its length equals the number of enumerated clips, and its tail
is a permutation of the other enumerated clips, with no duplicates. -/
theorem c1_amended (entries : List Entry) (st sp : String) (seed : Option Int)
    (g0 : Nat → Nat) (hnd : (entries.map Entry.name).Nodup)
    (_hres : resolveStart entries (enumerateClips entries) st = some sp)
    (hin : sp ∈ enumerateClips entries) :
    (planOrder seed g0 (enumerateClips entries) sp).head? = some sp ∧
    (planOrder seed g0 (enumerateClips entries) sp).length =
      (enumerateClips entries).length ∧
    ((planOrder seed g0 (enumerateClips entries) sp).tail).Perm
      ((enumerateClips entries).filter (fun p => p != sp)) ∧
    (planOrder seed g0 (enumerateClips entries) sp).Nodup := by
  have hnodup : (enumerateClips entries).Nodup := nodup_enumerateClips hnd
  have hfe : (enumerateClips entries).filter (fun p => p != sp) =
      (enumerateClips entries).erase sp :=
    (List.Nodup.erase_eq_filter hnodup sp).symm
  have hpos : 0 < (enumerateClips entries).length :=
    List.length_pos.mpr (List.ne_nil_of_mem hin)
  have hsh : (pyShuffle (planGen seed g0)
        ((enumerateClips entries).filter (fun p => p != sp))).Perm
      ((enumerateClips entries).filter (fun p => p != sp)) :=
    pyShuffle_perm _ _
  have horder : (planOrder seed g0 (enumerateClips entries) sp).Perm
      (enumerateClips entries) := by
    show (sp :: pyShuffle (planGen seed g0)
      ((enumerateClips entries).filter (fun p => p != sp))).Perm (enumerateClips entries)
    refine (hsh.cons sp).trans ?_
    rw [hfe]
    exact (List.perm_cons_erase hin).symm
  refine ⟨rfl, horder.length_eq, hsh, horder.symm.nodup hnodup⟩

/-- C1 (witness for the amended claim): three clips `a.mp4, b.mp4, c.mp4`
started at `b.mp4` with seed 7. -/
theorem c1_witness :
    (planOrder (some 7) (fun _ => 0)
        (enumerateClips [⟨"a.mp4", true⟩, ⟨"b.mp4", true⟩, ⟨"c.mp4", true⟩])
        "b.mp4").head? = some "b.mp4" ∧
    (planOrder (some 7) (fun _ => 0)
        (enumerateClips [⟨"a.mp4", true⟩, ⟨"b.mp4", true⟩, ⟨"c.mp4", true⟩])
        "b.mp4").length =
      (enumerateClips [⟨"a.mp4", true⟩, ⟨"b.mp4", true⟩, ⟨"c.mp4", true⟩]).length ∧
    ((planOrder (some 7) (fun _ => 0)
        (enumerateClips [⟨"a.mp4", true⟩, ⟨"b.mp4", true⟩, ⟨"c.mp4", true⟩])
        "b.mp4").tail).Perm
      ((enumerateClips [⟨"a.mp4", true⟩, ⟨"b.mp4", true⟩, ⟨"c.mp4", true⟩]).filter
        (fun p => p != "b.mp4")) ∧
    (planOrder (some 7) (fun _ => 0)
        (enumerateClips [⟨"a.mp4", true⟩, ⟨"b.mp4", true⟩, ⟨"c.mp4", true⟩])
        "b.mp4").Nodup :=
  c1_amended [⟨"a.mp4", true⟩, ⟨"b.mp4", true⟩, ⟨"c.mp4", true⟩] "b.mp4" "b.mp4"
    (some 7) (fun _ => 0) (by decide) (by decide) (by decide)

/-- C2 (counterexample): the claim fails as stated. `notes.txt` matches no
enumerated clip, yet the run does not fail with the start-not-found error:
because a file of that name exists at the resolved path, the code accepts
it as the start and proceeds. -/
theorem c2_counterexample :
    "notes.txt" ∉ enumerateClips entries0 ∧
    resolveStart entries0 (enumerateClips entries0) "notes.txt" = some "notes.txt" ∧
    mainModel entries0 "notes.txt" none none 30 20 "medium" "192k"
        ProbeOutcome.fails none (fun _ => 0) true (fun _ => none) none ≠
      MainResult.earlyExit 4 := by
  decide

/-- C2 (amended): the run fails with exit code 4 (the start-not-found
error, distinct from the other exit codes and from success) exactly when
no directory entry at all bears the requested name; when an entry of that
name exists, even one outside the enumerated clips, the run proceeds with
it. -/
theorem c2_amended (entries : List Entry) (st : String) (w h : Option Int)
    (fps crf : Int) (preset audioBitrate : String) (o : ProbeOutcome)
    (seed : Option Int) (g0 : Nat → Nat) (fast : Bool) (tc : Nat → Option Int)
    (cc : Option Int) :
    (resolveStart entries (enumerateClips entries) st = none ↔
      ∀ e ∈ entries, e.name ≠ st) ∧
    (enumerateClips entries ≠ [] → (∀ e ∈ entries, e.name ≠ st) →
      mainModel entries st w h fps crf preset audioBitrate o seed g0 fast tc cc =
        MainResult.earlyExit 4) ∧
    ((4 : Int) ≠ 0 ∧ (4 : Int) ≠ 3 ∧ (4 : Int) ≠ 2) := by
  refine ⟨resolveStart_eq_none_iff entries st, ?_, by decide, by decide, by decide⟩
  intro hne hnone
  unfold mainModel
  rw [if_neg (by simpa [List.isEmpty_iff] using hne)]
  rw [(resolveStart_eq_none_iff entries st).mpr hnone]

/-- C2 (witness for the amended claim): a folder with one clip and a
requested start name matching nothing fails with exit code 4. -/
theorem c2_witness :
    mainModel [⟨"a.mp4", true⟩] "zzz.mp4" none none 30 20 "medium" "192k"
        ProbeOutcome.fails none (fun _ => 0) false (fun _ => none) none =
      MainResult.earlyExit 4 :=
  (c2_amended [⟨"a.mp4", true⟩] "zzz.mp4" none none 30 20 "medium" "192k"
      ProbeOutcome.fails none (fun _ => 0) false (fun _ => none) none).2.1
    (by decide) (by decide)

/-- C3 (confirmed): with a seed supplied, the whole run result, and in
particular the play order, is independent of the ambient generator state:
two runs with the same seed and the same enumerated input produce
identical results. The stdlib generator itself is modelled (it is outside
the repository); the determinism rests on src lines 198-200, where the
seed replaces the generator state before the single shuffle. -/
theorem c3_seed_determinism (entries : List Entry) (st : String) (w h : Option Int)
    (fps crf : Int) (preset audioBitrate : String) (o : ProbeOutcome) (s : Int)
    (g0 g1 : Nat → Nat) (fast : Bool) (tc : Nat → Option Int) (cc : Option Int) :
    mainModel entries st w h fps crf preset audioBitrate o (some s) g0 fast tc cc =
      mainModel entries st w h fps crf preset audioBitrate o (some s) g1 fast tc cc ∧
    planOrder (some s) g0 (enumerateClips entries) st =
      planOrder (some s) g1 (enumerateClips entries) st :=
  ⟨rfl, rfl⟩

/-- C4 (counterexample): the claim fails as stated. With width explicitly
given as 0 and height as 1080, both dimensions are explicitly given, yet
the probe is called (Python truthiness treats 0 like absent) and the
probed width 640 is used instead of the verbatim 0. -/
theorem c4_counterexample :
    (resolveSize (some 0) (some 1080)
        (ProbeOutcome.succeeds (String.toList "640x480"))).2 = true ∧
    (resolveSize (some 0) (some 1080)
        (ProbeOutcome.succeeds (String.toList "640x480"))).1.1 = 640 := by
  decide

/-- C4 (amended): if both width and height are explicitly given and
nonzero they are used verbatim with no probe call; otherwise (either
absent, or given as 0) the starting clip is probed and the probed value
fills every dimension that is not truthy; a failing probe yields the
1920 by 1080 fallback; and the probe outcome never changes whether the run
proceeds (probing failure is non-fatal). -/
theorem c4_amended (w h : Option Int) (o : ProbeOutcome) :
    ((∃ wv hv, w = some wv ∧ h = some hv ∧ wv ≠ 0 ∧ hv ≠ 0) →
      resolveSize w h o = ((w.getD 0, h.getD 0), false)) ∧
    ((pyTruthy w = false ∨ pyTruthy h = false) →
      resolveSize w h o = ((pyOr w (probe_size o).1, pyOr h (probe_size o).2), true)) ∧
    probe_size ProbeOutcome.fails = (1920, 1080) ∧
    (∀ (entries : List Entry) (st : String) (fps crf : Int)
       (preset audioBitrate : String) (seed : Option Int) (g0 : Nat → Nat)
       (fast : Bool) (tc : Nat → Option Int) (cc : Option Int) (o2 : ProbeOutcome),
      (mainModel entries st w h fps crf preset audioBitrate o seed g0
          fast tc cc).probedOf.isSome =
        (mainModel entries st w h fps crf preset audioBitrate o2 seed g0
          fast tc cc).probedOf.isSome) := by
  refine ⟨?_, ?_, rfl, ?_⟩
  · rintro ⟨wv, hv, rfl, rfl, hw, hv0⟩
    unfold resolveSize
    rw [if_pos (by simp [pyTruthy, hw, hv0])]
  · intro hor
    unfold resolveSize
    rcases hor with hw | hh
    · rw [if_neg (by simp [hw])]
    · rw [if_neg (by simp [hh])]
  · intro entries st fps crf preset audioBitrate seed g0 fast tc cc o2
    unfold mainModel
    by_cases he : (enumerateClips entries).isEmpty
    · rw [if_pos he, if_pos he]
    · rw [if_neg he, if_neg he]
      cases hr : resolveStart entries (enumerateClips entries) st with
      | none => rfl
      | some sp => rfl

/-- C4 (witness for the amended claim): explicit nonzero 1280 by 720 pass
through verbatim without probing, and an absent width with a failing probe
resolves to the 1920 fallback. -/
theorem c4_witness :
    resolveSize (some 1280) (some 720)
        (ProbeOutcome.succeeds (String.toList "640x480")) = ((1280, 720), false) ∧
    resolveSize none (some 720) ProbeOutcome.fails = ((1920, 720), true) := by
  constructor
  · exact (c4_amended (some 1280) (some 720)
      (ProbeOutcome.succeeds (String.toList "640x480"))).1
      ⟨1280, 720, rfl, rfl, by decide, by decide⟩
  · have h2 := (c4_amended none (some 720) ProbeOutcome.fails).2.1 (Or.inl rfl)
    rw [h2]
    decide

/-- C5 (confirmed): when the transcoder fails on clip `i` of the play
order (the first failure, with the nonzero status `c`), the normal-path
run invokes the transcoder for clips 0 through `i` only, produces
intermediates for clips before `i` only, never reaches concatenation,
writes no output, exits with the tool status, and the scoped temporary
directory is created and removed nonetheless. -/
theorem c5_transcode_abort (size : Int × Int) (fps crf : Int)
    (preset audioBitrate : String) (ordered : List String) (tc : Nat → Option Int)
    (cc : Option Int) (i : Nat) (c : Int) (hi : i < ordered.length)
    (hok : ∀ j, j < i → tc j = none) (hc : tc i = some c) (hc0 : c ≠ 0) :
    pipeline false size fps crf preset audioBitrate ordered tc cc =
      { tempDirCreated := true, tempDirRemoved := true,
        invoked := ((ordered.take (i + 1)).enumFrom 0).map
          (fun p => normalizeCmd p.2 (partName p.1) fps size crf preset audioBitrate),
        normalized := (List.range' 0 i).map partName,
        concatList := none, manifestDeleted := false, outputWritten := false,
        exit := c } ∧ c ≠ 0 := by
  refine ⟨?_, hc0⟩
  have hok0 : ∀ j, j < i → tc (0 + j) = none := by
    intro j hj
    rw [Nat.zero_add]
    exact hok j hj
  have hci : tc (0 + i) = some c := by
    rw [Nat.zero_add]
    exact hc
  have hnl := normLoop_firstFail size fps crf preset audioBitrate tc c ordered 0 i
    hi hok0 hci
  unfold pipeline
  rw [if_neg (by decide), hnl]

/-- C5 (witness): three clips with a simulated failure (status 1) on the
second. -/
theorem c5_witness :
    pipeline false (1920, 1080) 30 20 "medium" "192k" ["a.mp4", "b.mp4", "c.mp4"]
        (fun j => if j = 1 then some 1 else none) none =
      { tempDirCreated := true, tempDirRemoved := true,
        invoked := ((["a.mp4", "b.mp4", "c.mp4"].take 2).enumFrom 0).map
          (fun p => normalizeCmd p.2 (partName p.1) 30 (1920, 1080) 20 "medium" "192k"),
        normalized := (List.range' 0 1).map partName,
        concatList := none, manifestDeleted := false, outputWritten := false,
        exit := 1 } ∧ (1 : Int) ≠ 0 :=
  c5_transcode_abort (1920, 1080) 30 20 "medium" "192k" ["a.mp4", "b.mp4", "c.mp4"]
    (fun j => if j = 1 then some 1 else none) none 1 1 (by decide)
    (fun j hj => by
      have hj0 : j = 0 := by omega
      rw [hj0]
      rfl)
    rfl (by decide)

/-- C6 (counterexample): the claim fails as stated. For the single input
path `a`, newline, `b` the manifest holds two nonempty physical lines, not
one line per input, and the modelled joiner does not read back the one
literal path (the parse fails on an unterminated quote). -/
theorem c6_counterexample :
    ((splitLines (manifestContent [['a', nlc, 'b']])).filter
        (fun l => !l.isEmpty)).length = 2 ∧
    joinerPaths (manifestContent [['a', nlc, 'b']]) = none := by
  decide

/-- C6 (amended): for every ordered list of newline-free input paths, the
manifest consists of exactly one `file` line per input, in the same order,
and the joiner reads back exactly the original paths: every embedded
single quote is escaped so the entry stays one literal path. -/
theorem c6_amended (ps : List (List Char)) (hnl : ∀ p ∈ ps, nlc ∉ p) :
    splitLines (manifestContent ps) =
      ps.map (fun p => fileTag ++ escSQ p ++ [sq]) ++ [[]] ∧
    joinerPaths (manifestContent ps) = some ps := by
  have hsl := splitLines_manifest ps hnl
  refine ⟨hsl, ?_⟩
  unfold joinerPaths
  rw [show splitLines (manifestContent ps) =
      ps.map (fun p => fileTag ++ escSQ p ++ [sq]) ++ [[]] from hsl]
  rw [List.filter_append]
  have h1 : (ps.map (fun p => fileTag ++ escSQ p ++ [sq])).filter
      (fun l => !l.isEmpty) = ps.map (fun p => fileTag ++ escSQ p ++ [sq]) := by
    apply List.filter_eq_self.mpr
    intro l hl
    rcases List.mem_map.mp hl with ⟨p, _, rfl⟩
    rfl
  rw [h1, show ([[]] : List (List Char)).filter (fun l => !l.isEmpty) = [] from rfl,
    List.append_nil]
  exact parseAllEntries_manifest ps

/-- C6 (witness for the amended claim): two paths, the first containing an
embedded single quote, are read back verbatim by the joiner. -/
theorem c6_witness :
    joinerPaths (manifestContent [['a', sq, 'b'], ['c']]) =
      some [['a', sq, 'b'], ['c']] :=
  (c6_amended [['a', sq, 'b'], ['c']] (by decide)).2

/-- C7 (confirmed): in fast mode, for every play order, no temporary
directory is created, no transcoder is invoked, no intermediate file is
produced, and the joiner is handed exactly the original clips in play
order, with the stream-copy command of `concat_via_list`. -/
theorem c7_fast_mode (size : Int × Int) (fps crf : Int)
    (preset audioBitrate : String) (ordered : List String) (tc : Nat → Option Int)
    (cc : Option Int) :
    pipeline true size fps crf preset audioBitrate ordered tc cc =
      { tempDirCreated := false, tempDirRemoved := false, invoked := [],
        normalized := [], concatList := some ordered, manifestDeleted := true,
        outputWritten := cc.isNone, exit := cc.getD 0 } ∧
    (∀ listPath output, concatCmd listPath output =
      ["ffmpeg", "-y", "-f", "concat", "-safe", "0", "-i", listPath,
       "-c", "copy", output]) :=
  ⟨rfl, fun _ _ => rfl⟩

/-- C8 (confirmed): whatever the joiner outcome, the trace of
`concat_via_list` starts with writing the manifest, invoking the joiner,
and unlinking the manifest, in that order: the manifest is deleted after
the invocation on the success path and on the failure path alike. -/
theorem c8_manifest_scoped (files : List (List Char)) (listPath output : String)
    (outcome : Option Int) :
    ∃ rest, concatTrace files listPath output outcome =
      [Ev.writeManifest (manifestContent files), Ev.invoke (concatCmd listPath output),
       Ev.unlinkManifest] ++ rest := by
  cases outcome with
  | none => exact ⟨[], rfl⟩
  | some c => exact ⟨[Ev.exitProc c], rfl⟩

/-- C9 (confirmed): enumeration returns exactly the file entries of the
directory whose extension lowercases to `.mp4`; the result is sorted by
the code-point order on names (the order Python `sorted` uses on the
paths); and the result is independent of the filesystem enumeration
order, since any permutation of the entries enumerates identically. -/
theorem c9_enumeration (entries entries2 : List Entry) (x : String) :
    (x ∈ enumerateClips entries ↔
      ∃ e ∈ entries, e.name = x ∧ e.isFile = true ∧ lowerStr (pySuffix x) = ".mp4") ∧
    (enumerateClips entries).Sorted nameLe ∧
    (entries.Perm entries2 → enumerateClips entries = enumerateClips entries2) := by
  refine ⟨?_, sorted_enumerateClips entries, fun h => enumerateClips_perm h⟩
  rw [mem_enumerateClips]
  constructor
  · rintro ⟨e, he, rfl, hel⟩
    simp only [eligible, Bool.and_eq_true, beq_iff_eq] at hel
    exact ⟨e, he, rfl, hel.2, hel.1⟩
  · rintro ⟨e, he, rfl, hf, hext⟩
    exact ⟨e, he, rfl, by simp [eligible, hf, hext]⟩

/-- C9 (witness): two filesystem enumeration orders of the same two clips
enumerate to the same sorted clip list. -/
theorem c9_witness :
    enumerateClips [⟨"b.mp4", true⟩, ⟨"a.mp4", true⟩] =
      enumerateClips [⟨"a.mp4", true⟩, ⟨"b.mp4", true⟩] :=
  (c9_enumeration [⟨"b.mp4", true⟩, ⟨"a.mp4", true⟩]
    [⟨"a.mp4", true⟩, ⟨"b.mp4", true⟩] "x").2.2 (by decide)

/-- C10 (confirmed): when width and height are not both explicitly given,
a fast-mode run that reaches profile resolution has performed the probe
(the probe flag cannot be false), even though the fast branch never uses
the resolved size: the fast-branch effects are identical for any two
sizes. -/
theorem c10_probe_in_fast (entries : List Entry) (st : String) (w h : Option Int)
    (fps crf : Int) (preset audioBitrate : String) (o : ProbeOutcome)
    (seed : Option Int) (g0 : Nat → Nat) (tc : Nat → Option Int) (cc : Option Int)
    (hw : w = none ∨ h = none) :
    (mainModel entries st w h fps crf preset audioBitrate o seed g0
        true tc cc).probedOf ≠ some false ∧
    (∀ (size size2 : Int × Int) (ordered : List String),
      pipeline true size fps crf preset audioBitrate ordered tc cc =
        pipeline true size2 fps crf preset audioBitrate ordered tc cc) := by
  refine ⟨?_, fun _ _ _ => rfl⟩
  unfold mainModel
  by_cases he : (enumerateClips entries).isEmpty
  · rw [if_pos he]
    simp [MainResult.probedOf]
  · rw [if_neg he]
    cases hr : resolveStart entries (enumerateClips entries) st with
    | none => simp [MainResult.probedOf]
    | some sp => simp [MainResult.probedOf, resolveSize_probed_of_missing hw o]

/-- C10 (witness): a fast-mode run with only the height given reaches the
pipeline with the probe performed. -/
theorem c10_witness :
    (mainModel [⟨"a.mp4", true⟩] "a.mp4" none (some 720) 30 20 "medium" "192k"
        ProbeOutcome.fails none (fun _ => 0) true (fun _ => none) none).probedOf ≠
      some false :=
  (c10_probe_in_fast [⟨"a.mp4", true⟩] "a.mp4" none (some 720) 30 20 "medium" "192k"
    ProbeOutcome.fails none (fun _ => 0) (fun _ => none) none (Or.inl rfl)).1

end SoraStitcher
